import Mathlib

/-!
Shallow embedding of the event-based PSHA engine
(`openquake/calculators/event_based.py`, `event_based_damage.py`,
`hazardlib/gsim/can15/western.py`) and proofs about its aggregation,
partitioning and capacity-check logic.

Floating-point values of the source are modelled as exact rationals (`ℚ`);
machine integers as `ℕ`, with the storage limits (`2^16`, `2^32`, `2^8`)
written out explicitly where the code checks them.
-/

set_option maxHeartbeats 1000000
set_option maxRecDepth 2000

namespace EventBased

/-- The complement-rule update performed by `EventBasedCalculator.agg_dicts`
(line 331 of `event_based.py`): `array[:] = 1. - (1. - array) * (1. - poes)`,
for one cell holding `q` receiving a contribution `p`. -/
def merge_poe (q p : ℚ) : ℚ := 1 - (1 - q) * (1 - p)

/-- Folding a finite sequence of contributions into one ProbabilityMap cell,
in arrival order, each step being the `agg_dicts` complement-rule update. -/
def merge_cell (init : ℚ) (ps : List ℚ) : ℚ := ps.foldl merge_poe init

/-- The hazard-curve accumulator: one exceedance probability per key
`(realization, site-id, imt-level)`.  `agg_dicts` keeps one `ProbabilityMap`
per realization, each mapping a site to an array of per-level values; we
flatten that nesting into a single keyed map. -/
abbrev HCurveAcc : Type := ℕ × ℕ × ℕ → ℚ

/-- The `hcurves` loop of `agg_dicts` (lines 328-331 of `event_based.py`):
each incoming keyed contribution is merged into the matching cell with the
complement rule; all other cells are untouched. -/
def agg_hcurves (acc : HCurveAcc) (hcurves : List ((ℕ × ℕ × ℕ) × ℚ)) : HCurveAcc :=
  hcurves.foldl
    (fun a kp => fun k => if k = kp.1 then merge_poe (a k) kp.2 else a k) acc

/-- Constant `TWO32 = 2 ** 32`, the hard ceiling on `gmf_data` rows
(line 43 of `event_based.py`). -/
def TWO32 : ℕ := 2 ^ 32

/-- The errors the embedded calculator can raise. -/
inductive EngineError : Type
  /-- The `RuntimeError: The gmf_data table has more than 4294967296 rows`
  of lines 323-325. -/
  | gmfCapacity : EngineError
  /-- The `ValueError: The event based calculator is restricted to ...` of
  lines 366-369, carrying which limit was violated. -/
  | tooManySites : EngineError
  | tooManyEvents : EngineError
  | tooManyImts : EngineError
  /-- The `RuntimeError: No seismic events! ...` of lines 435-438. -/
  | noSeismicEvents : EngineError
deriving DecidableEq

/-- One GMF-append step of `agg_dicts` (lines 322-325 of `event_based.py`):
`self.offset += len(data); if self.offset >= TWO32: raise RuntimeError(...)`.
Takes the write pointer before the append and the number of appended rows,
returns the advanced pointer or the capacity error. -/
def extend_gmf (offset ndata : ℕ) : Except EngineError ℕ :=
  if offset + ndata ≥ TWO32 then Except.error EngineError.gmfCapacity
  else Except.ok (offset + ndata)

/-- The sequence of GMF appends over a whole run: each worker result's rows
are appended in completion order, threading the global write pointer. -/
def extend_gmf_run (offset : ℕ) : List ℕ → Except EngineError ℕ
  | [] => Except.ok offset
  | n :: rest =>
      match extend_gmf offset n with
      | Except.error e => Except.error e
      | Except.ok off => extend_gmf_run off rest

/-- Method `EventBasedCalculator.check_overflow` (lines 351-369 of `event_based.py`):
`max_ = dict(sites=2**16, events=2**32, imts=2**8)`; raise if any actual
count is strictly larger than its limit. -/
def check_overflow (sites events imts : ℕ) : Except EngineError Unit :=
  if sites > 2 ^ 16 then Except.error EngineError.tooManySites
  else if events > 2 ^ 32 then Except.error EngineError.tooManyEvents
  else if imts > 2 ^ 8 then Except.error EngineError.tooManyImts
  else Except.ok ()

/-- Holds `true` exactly when `check_overflow` raises. -/
def overflows (sites events imts : ℕ) : Bool :=
  match check_overflow sites events imts with
  | Except.ok _ => false
  | Except.error _ => true

/-- A source as `gen_args` sees it: `eb_ruptures` is the number of sampled
ruptures it holds (`len(src.eb_ruptures)`, which is also its heuristic
`weight`, lines 47-49 of `event_based.py`). -/
structure EBSource : Type where
  id : ℕ
  eb_ruptures : ℕ
deriving DecidableEq

/-- Heuristic `weight(src) = len(src.eb_ruptures)` (lines 47-49). -/
def weight (src : EBSource) : ℕ := src.eb_ruptures

/-- A source group: its sources and the `src_interdep` flag
(`'mutex'` marks a mutually-exclusive group). -/
structure SourceGroup : Type where
  sources : List EBSource
  src_interdep : String
deriving DecidableEq

/-- Modelled from the spec: `block_splitter` from `openquake.baselib.general`
(imported on line 27 of `event_based.py` but not among the staged files).
Weight-bounded mode of §4.1: greedily accumulate sources into a block,
closing the block before the next source would push it over `maxweight`; a
single source heavier than `maxweight` becomes its own block.  `cur` is the
block under construction (reversed) and `w` its accumulated weight. -/
def block_splitter_go (maxweight : ℕ) :
    List EBSource → List EBSource → ℕ → List (List EBSource)
  | [], [], _ => []
  | [], cur, _ => [cur.reverse]
  | s :: rest, cur, w =>
      if cur ≠ [] ∧ w + weight s > maxweight then
        cur.reverse :: block_splitter_go maxweight rest [s] (weight s)
      else
        block_splitter_go maxweight rest (s :: cur) (w + weight s)

/-- Modelled from the spec: see `block_splitter_go`. -/
def block_splitter (sources : List EBSource) (maxweight : ℕ) :
    List (List EBSource) :=
  block_splitter_go maxweight sources [] 0

/-- The block-generation logic of `EventBasedCalculator.gen_args`
(lines 214-231 of `event_based.py`), fresh-computation path: per group, drop
the sources producing no ruptures and skip the group if none remain; a
`'mutex'` group is yielded whole as one block; any other group is split with
`block_splitter` under `maxweight`. -/
def gen_blocks (maxweight : ℕ) : List SourceGroup → List (List EBSource)
  | [] => []
  | sg :: rest =>
      let srcs := sg.sources.filter (fun s => s.eb_ruptures ≠ 0)
      let tail := gen_blocks maxweight rest
      if srcs = [] then tail
      else if sg.src_interdep = "mutex" then srcs :: tail
      else block_splitter srcs maxweight ++ tail

/-- One record of the `events` dataset, reduced to the fields year assignment
touches: the globally unique event id and the year label. -/
structure Event : Type where
  eid : ℕ
  year : ℕ
deriving DecidableEq

/-- Modelled from the spec: `numpy.random.seed(seed)` followed by
`numpy.random.choice(n, count)` (an external library call, lines 120 and 444).
The spec requires only a deterministic stream of uniform draws in `[0, n)`
keyed by a single configured seed; we model the seeded generator as a linear
congruential generator on 64-bit state. -/
def lcgNext (s : ℕ) : ℕ := (6364136223846793005 * s + 1442695040888963407) % 2 ^ 64

/-- A list of `count` pseudo-random draws in `[0, n)` from seed `s`: see `lcgNext`. -/
def lcgDraws (s n : ℕ) : ℕ → List ℕ
  | 0 => []
  | count + 1 => lcgNext s % n :: lcgDraws (lcgNext s) n count

/-- First-match lookup in an association list, standing for the Python `dict`
built by `dict(zip(numpy.sort(events['eid']), years))` on line 121 (event ids
are strictly unique by the stored-event invariant, so first match and last
match agree). -/
def dictLookup (k : ℕ) : List (ℕ × ℕ) → Option ℕ
  | [] => none
  | p :: rest => if p.1 = k then some p.2 else dictLookup k rest

/-- The eid → year association built by `set_random_years` (lines 119-121 of
`event_based.py`): one draw per event in `[0, investigation_time) + 1`,
zipped against the sorted event ids (`numpy.sort` modelled as insertion
sort). -/
def year_assoc (seed investigation_time : ℕ) (events : List Event) :
    List (ℕ × ℕ) :=
  List.zip (List.insertionSort (· ≤ ·) (events.map Event.eid))
    ((lcgDraws seed investigation_time events.length).map (fun y => y + 1))

/-- The event→year mapping `year_of` of `set_random_years`, as a function of
the event id. -/
def year_map (seed investigation_time : ℕ) (events : List Event) (eid : ℕ) :
    Option ℕ :=
  dictLookup eid (year_assoc seed investigation_time events)

/-- Function `set_random_years` (lines 110-124 of `event_based.py`): draw one year per
event, key the sorted eids to the draws, then overwrite every event's `year`
with its eid's entry (every eid is a key of the dict, so the `getD` default
is never used). -/
def set_random_years (seed investigation_time : ℕ) (events : List Event) :
    List Event :=
  events.map fun e =>
    { e with year := (year_map seed investigation_time events e.eid).getD 0 }

/-- The zero-event guard and year-assignment pass of
`EventBasedCalculator.post_execute` (lines 425-446 of `event_based.py`): only
when `oq.hazard_calculation_id is None` does the calculator count the stored
events, raise on zero, and then assign random years seeded by `ses_seed`. -/
def post_execute (hazard_calculation_id : Option ℕ)
    (ses_seed investigation_time : ℕ) (events : List Event) :
    Except EngineError (List Event) :=
  match hazard_calculation_id with
  | none =>
      if events.length = 0 then Except.error EngineError.noSeismicEvents
      else Except.ok (set_random_years ses_seed investigation_time events)
  | some _ => Except.ok events

end EventBased

namespace EventBasedDamage

/-- One asset row as `event_based_damage` reads it
(`event_based_damage.py`): its ordinal and its exposed quantity
(`asset['number']`). -/
structure DamageAsset : Type where
  ordinal : ℕ
  number : ℚ
deriving DecidableEq

/-- Pointwise sum of damage-state vectors (`+=` on numpy rows). -/
def addVec (v w : List ℚ) : List ℚ := List.zipWith (· + ·) v w

/-- Scaling a damage-state vector by an exposed quantity
(`ddd[a] *= asset['number']`, line 88). -/
def scaleVec (c : ℚ) (v : List ℚ) : List ℚ := v.map (fun x => c * x)

/-- The inner accumulation of `event_based_damage` (lines 83-97 of
`event_based_damage.py`) for one loss type and one event, consequence
columns omitted (`crmodel.compute_csq` is an external evaluator): scale each
asset's damage-state fractions by its quantity, sum over assets into the
`total` bucket `(eid, K)`, and add each asset's own row to the bucket
`(eid, kids[aid])` only when `K` is nonzero.  `D` is the number of damage
states, `kids` the aggregation-key array indexed by asset ordinal, and
`fractions` is indexed like `assets`. -/
def accum_damage (D K : ℕ) (kids : ℕ → ℕ) (assets : List DamageAsset)
    (fractions : List (List ℚ)) (eid : ℕ) : ℕ × ℕ → List ℚ :=
  let ddd := (assets.zip fractions).map (fun af => scaleVec af.1.number af.2)
  let tot := ddd.foldl addVec (List.replicate D 0)
  let base : ℕ × ℕ → List ℚ := fun key =>
    if key = (eid, K) then addVec (List.replicate D 0) tot
    else List.replicate D 0
  if K ≠ 0 then
    (assets.zip ddd).foldl
      (fun acc ad => fun key =>
        if key = (eid, kids ad.1.ordinal) then addVec (acc key) ad.2
        else acc key)
      base
  else base

end EventBasedDamage

namespace Can15

/-- The standard-deviation kinds of `openquake.hazardlib.const.StdDev`. -/
inductive StdDevType : Type
  | total : StdDevType
  | interEvent : StdDevType
  | intraEvent : StdDevType
deriving DecidableEq

/-- Function `get_sigma` from `can15/western.py` (lines 31-45).  The code returns
`np.log(10 ** e(period))`; since `x ↦ ln(10^x)` is strictly increasing and
injective we carry the exponent `e(period)` exactly in `ℚ`:
`0.23` below period `0.2`, `0.27` above period `1.0`, and the linear
interpolation `0.23 + (period - 0.2)/0.8 * 0.04` in between. -/
def get_sigma (period : ℚ) : ℚ :=
  if period < 1/5 then 23/100
  else if period > 1 then 27/100
  else 23/100 + (period - 1/5) / (4/5) * (1/25)

/-- The mean-adjustment exponent of `WesternCan15Mid.get_mean_and_stddevs`
(lines 84-86): `min(0.1 + 0.0007*rjb, 0.3)`, again carried as the `log10`
exponent of the code's `np.log(10.**...)`. -/
def delta_exp (rjb : ℚ) : ℚ := min (1/10 + 7/10000 * rjb) (3/10)

/-- Method `WesternCan15Mid.get_mean_and_stddevs` and its `Low`/`Upp` subclasses
(lines 71-97 of `can15/western.py`), with the external parent call
`BooreAtkinson2011.get_mean_and_stddevs` passed in by its outputs
`parentMean`/`parentStds` (what `super().get_mean_and_stddevs` returned for
the requested `stddev_types`): the mean is the parent mean, shifted by
`sgn * delta` when `sgn ≠ 0`; the returned standard deviations are rebuilt
from scratch as one array `np.ones(len(dists.rjb)) * get_sigma(imt)`, so the
parent's standard deviations are dropped. -/
def get_mean_and_stddevs (sgn : ℚ) (parentMean : List ℚ)
    (parentStds : List (List ℚ)) (rjb : List ℚ) (period : ℚ)
    (stddev_types : List StdDevType) : List ℚ × List (List ℚ) :=
  let mean :=
    if sgn = 0 then parentMean
    else (parentMean.zip rjb).map (fun mr => mr.1 + sgn * delta_exp mr.2)
  (mean, [List.replicate rjb.length (get_sigma period)])

end Can15

namespace EventBased

theorem merge_poe_comm (q p : ℚ) : merge_poe q p = merge_poe p q := by
  unfold merge_poe; ring

theorem merge_poe_assoc (q p r : ℚ) :
    merge_poe (merge_poe q p) r = merge_poe q (merge_poe p r) := by
  unfold merge_poe; ring

/-- The complement of a folded cell value is the product of the complements:
`1 - merge_cell init ps = (1 - init) * ∏ (1 - p)`. -/
theorem one_sub_merge_cell (ps : List ℚ) (init : ℚ) :
    1 - merge_cell init ps = (1 - init) * (ps.map (fun p => 1 - p)).prod := by
  induction ps generalizing init with
  | nil => simp [merge_cell]
  | cons p rest ih =>
      have h := ih (merge_poe init p)
      simp only [merge_cell, List.foldl_cons, List.map_cons, List.prod_cons] at *
      rw [h]
      unfold merge_poe
      ring

theorem merge_cell_eq (ps : List ℚ) (init : ℚ) :
    merge_cell init ps = 1 - (1 - init) * (ps.map (fun p => 1 - p)).prod := by
  have h := one_sub_merge_cell ps init
  linarith

/-- Claim C1: merging the contributions destined for one ProbabilityMap cell
in any arrival order (any permutation of the sequence) yields the same final
cell value; the `agg_dicts` complement-rule merge is commutative and
associative, so the final state is independent of task completion order. -/
theorem merge_order_independent :
    (∀ q p : ℚ, merge_poe q p = merge_poe p q) ∧
    (∀ q p r : ℚ, merge_poe (merge_poe q p) r = merge_poe q (merge_poe p r)) ∧
    (∀ (init : ℚ) (ps ps' : List ℚ), ps.Perm ps' →
      merge_cell init ps = merge_cell init ps') := by
  refine ⟨merge_poe_comm, merge_poe_assoc, ?_⟩
  intro init ps ps' hperm
  rw [merge_cell_eq, merge_cell_eq, (hperm.map (fun p => 1 - p)).prod_eq]

/-- Concrete instance of C1: the contributions `[1/2, 1/3]` merged in either
order give the same cell value. -/
theorem merge_order_independent_witness :
    merge_cell 0 [1/2, 1/3] = merge_cell 0 [1/3, 1/2] :=
  merge_order_independent.2.2 0 [1/2, 1/3] [1/3, 1/2]
    (List.Perm.swap (1/3) (1/2) [])

/-- Claim C2: merging one partial contribution `p` into a hazard-curve
accumulator cell holding `q` updates that cell to exactly
`1 - (1 - q) * (1 - p)`; in particular two successive contributions of `0.5`
to the cell (realization 0, site 7, level 0) starting from the initial value
`0` combine to `0.75`. -/
theorem agg_hcurves_complement_rule :
    (∀ (acc : HCurveAcc) (k : ℕ × ℕ × ℕ) (p : ℚ),
      agg_hcurves acc [(k, p)] k = 1 - (1 - acc k) * (1 - p)) ∧
    agg_hcurves (fun _ => 0) [((0, 7, 0), 1/2), ((0, 7, 0), 1/2)] (0, 7, 0)
      = 3/4 := by
  constructor
  · intro acc k p
    simp [agg_hcurves, merge_poe]
  · norm_num [agg_hcurves, merge_poe]

/-- Claim C4: starting from the initial cell value `0`, after every prefix of
a finite sequence of complement-rule merges whose contributions all lie in
`[0, 1]`, the cell value is still in `[0, 1]`. -/
theorem merge_cell_mem_unit_interval (ps : List ℚ)
    (hps : ∀ p ∈ ps, 0 ≤ p ∧ p ≤ 1) (k : ℕ) :
    0 ≤ merge_cell 0 (ps.take k) ∧ merge_cell 0 (ps.take k) ≤ 1 := by
  have general : ∀ (l : List ℚ) (init : ℚ), 0 ≤ init → init ≤ 1 →
      (∀ p ∈ l, 0 ≤ p ∧ p ≤ 1) →
      0 ≤ merge_cell init l ∧ merge_cell init l ≤ 1 := by
    intro l
    induction l with
    | nil => intro init h0 h1 _; exact ⟨h0, h1⟩
    | cons p rest ih =>
        intro init h0 h1 hmem
        obtain ⟨hp0, hp1⟩ := hmem p (List.mem_cons_self p rest)
        have step0 : 0 ≤ merge_poe init p := by
          unfold merge_poe
          nlinarith
        have step1 : merge_poe init p ≤ 1 := by
          unfold merge_poe
          nlinarith
        have := ih (merge_poe init p) step0 step1
          (fun q hq => hmem q (List.mem_cons_of_mem p hq))
        simpa [merge_cell] using this
  exact general (ps.take k) 0 le_rfl (by norm_num)
    (fun p hp => hps p (List.mem_of_mem_take hp))

/-- Concrete instance of C4: contributions `[1/2, 1/2, 1/4]` keep the cell in
`[0, 1]` after the first two merges. -/
theorem merge_cell_mem_unit_interval_witness :
    0 ≤ merge_cell 0 ([(1:ℚ)/2, 1/2, 1/4].take 2) ∧
      merge_cell 0 ([(1:ℚ)/2, 1/2, 1/4].take 2) ≤ 1 :=
  merge_cell_mem_unit_interval [1/2, 1/2, 1/4] (by norm_num) 2

end EventBased

namespace EventBased

theorem extend_gmf_run_ok (batches : List ℕ) (offset : ℕ)
    (h : offset + batches.sum < TWO32) :
    extend_gmf_run offset batches = Except.ok (offset + batches.sum) := by
  induction batches generalizing offset with
  | nil => simp [extend_gmf_run]
  | cons n rest ih =>
      have hlt : offset + n + rest.sum < TWO32 := by
        simp only [List.sum_cons] at h; omega
      have hstep : extend_gmf offset n = Except.ok (offset + n) := by
        unfold extend_gmf
        rw [if_neg]
        omega
      simp only [extend_gmf_run, hstep, List.sum_cons, ih (offset + n) hlt]
      congr 1
      omega

/-- Concrete refutation of C3 as stated: a run whose appended GMF rows total
exactly `2 ^ 32` does not complete the appends — `agg_dicts` raises the
capacity error already when the advanced write pointer reaches `2 ^ 32`,
because its check is `self.offset >= TWO32`, not a strict comparison. -/
theorem extend_gmf_at_capacity_errors :
    extend_gmf_run 0 [2 ^ 32] = Except.error EngineError.gmfCapacity := by
  have h : extend_gmf 0 (2 ^ 32) = Except.error EngineError.gmfCapacity := by
    unfold extend_gmf
    rw [if_pos]
    unfold TWO32
    omega
  simp only [extend_gmf_run, h]

/-- Claim C3, amended: appending GMF rows raises the fatal capacity error
exactly when the global write pointer, after advancing by the appended row
count, would reach or exceed `2 ^ 32`; every run whose total appended rows is
strictly below `2 ^ 32` completes all appends without error, ending with the
pointer at that total. -/
theorem extend_gmf_capacity_check :
    (∀ offset ndata : ℕ,
      extend_gmf offset ndata = Except.error EngineError.gmfCapacity ↔
        TWO32 ≤ offset + ndata) ∧
    (∀ batches : List ℕ, batches.sum < TWO32 →
      extend_gmf_run 0 batches = Except.ok batches.sum) := by
  constructor
  · intro offset ndata
    unfold extend_gmf
    split_ifs with h
    · simpa using h
    · simp only [ge_iff_le, not_le] at h
      constructor
      · intro hc
        exact absurd hc (by simp)
      · intro hc
        omega
  · intro batches h
    have := extend_gmf_run_ok batches 0 (by simpa using h)
    simpa using this

/-- Concrete instance of the amended C3: three appends totalling 12 rows
complete and leave the pointer at 12. -/
theorem extend_gmf_capacity_check_witness :
    extend_gmf_run 0 [5, 3, 4] = Except.ok ([5, 3, 4] : List ℕ).sum :=
  extend_gmf_capacity_check.2 [5, 3, 4] (by decide)

/-- Claim C5: the terminal capacity check accepts exactly `2 ^ 16` sites,
exactly `2 ^ 32` events and exactly `2 ^ 8` intensity-measure types, and
raises whenever any one of these counts is one more than its limit,
whatever the other two counts are. -/
theorem check_overflow_boundary :
    check_overflow (2 ^ 16) (2 ^ 32) (2 ^ 8) = Except.ok () ∧
    (∀ events imts : ℕ, overflows (2 ^ 16 + 1) events imts = true) ∧
    (∀ sites imts : ℕ, overflows sites (2 ^ 32 + 1) imts = true) ∧
    (∀ sites events : ℕ, overflows sites events (2 ^ 8 + 1) = true) := by
  refine ⟨?_, ?_, ?_, ?_⟩
  · unfold check_overflow
    rw [if_neg (by omega), if_neg (by omega), if_neg (by omega)]
  · intro events imts
    simp only [overflows, check_overflow]
    split_ifs <;> first | rfl | omega
  · intro sites imts
    simp only [overflows, check_overflow]
    split_ifs <;> first | rfl | omega
  · intro sites events
    simp only [overflows, check_overflow]
    split_ifs <;> first | rfl | omega

theorem gen_blocks_append (maxweight : ℕ) (l₁ l₂ : List SourceGroup) :
    gen_blocks maxweight (l₁ ++ l₂) =
      gen_blocks maxweight l₁ ++ gen_blocks maxweight l₂ := by
  induction l₁ with
  | nil => simp [gen_blocks]
  | cons sg rest ih =>
      simp only [List.cons_append, gen_blocks]
      split_ifs <;> simp [ih]

/-- Claim C6: a source group flagged `src_interdep == 'mutex'` that still
contains a rupture-producing source is yielded by `gen_args` as exactly one
work block holding all its rupture-producing sources, wherever the group sits
in the source model and whatever the computed max block weight is. -/
theorem gen_blocks_mutex_single_block (pre post : List SourceGroup)
    (sg : SourceGroup) (maxweight : ℕ)
    (hmutex : sg.src_interdep = "mutex")
    (hne : sg.sources.filter (fun s => s.eb_ruptures ≠ 0) ≠ []) :
    gen_blocks maxweight (pre ++ sg :: post) =
      gen_blocks maxweight pre ++
        [sg.sources.filter (fun s => s.eb_ruptures ≠ 0)] ++
        gen_blocks maxweight post := by
  rw [gen_blocks_append]
  have hsg : gen_blocks maxweight (sg :: post) =
      sg.sources.filter (fun s => s.eb_ruptures ≠ 0) ::
        gen_blocks maxweight post := by
    simp only [gen_blocks]
    rw [if_neg hne, if_pos hmutex]
  rw [hsg]
  simp

/-- Concrete instance of C6: a mutex group of three sources with weights
1, 2, 3 yields exactly one block even under max weight 1. -/
theorem gen_blocks_mutex_single_block_witness :
    gen_blocks 1
        ([] ++ ({ sources := [⟨0, 1⟩, ⟨1, 2⟩, ⟨2, 3⟩],
                  src_interdep := "mutex" } : SourceGroup) :: []) =
      gen_blocks 1 [] ++
        [([⟨0, 1⟩, ⟨1, 2⟩, ⟨2, 3⟩] : List EBSource).filter
          (fun s => s.eb_ruptures ≠ 0)] ++
        gen_blocks 1 [] :=
  gen_blocks_mutex_single_block [] []
    { sources := [⟨0, 1⟩, ⟨1, 2⟩, ⟨2, 3⟩], src_interdep := "mutex" } 1
    rfl (by decide)

/-- Concrete refutation of C7 as stated: in a run reusing a precomputed
hazard calculation (`oq.hazard_calculation_id` set), `post_execute` performs
no zero-event check at all — with zero events it returns successfully
instead of raising. -/
theorem post_execute_reuse_skips_event_check :
    post_execute (some 0) 0 1 [] = Except.ok [] := rfl

/-- Claim C7, amended: in a fresh-computation run
(`oq.hazard_calculation_id is None`), zero generated events make
`post_execute` raise the fatal error before any further processing (in
particular before year assignment); with at least one event it proceeds to
assign the random years.  Runs reusing a precomputed hazard calculation skip
this check. -/
theorem post_execute_zero_events_fatal :
    (∀ seed t : ℕ,
      post_execute none seed t [] = Except.error EngineError.noSeismicEvents) ∧
    (∀ (seed t : ℕ) (events : List Event), events ≠ [] →
      post_execute none seed t events =
        Except.ok (set_random_years seed t events)) := by
  constructor
  · intro seed t
    rfl
  · intro seed t events h
    unfold post_execute
    rw [if_neg]
    simpa using h

/-- Concrete instance of the amended C7: one event is enough for
`post_execute` to proceed to year assignment. -/
theorem post_execute_zero_events_fatal_witness :
    post_execute none 42 50 [⟨0, 0⟩] =
      Except.ok (set_random_years 42 50 [⟨0, 0⟩]) :=
  post_execute_zero_events_fatal.2 42 50 [⟨0, 0⟩] (by decide)

end EventBased

namespace EventBased

theorem lcgDraws_length (s n count : ℕ) : (lcgDraws s n count).length = count := by
  induction count generalizing s with
  | zero => rfl
  | succ k ih => simp [lcgDraws, ih]

theorem lcgDraws_lt (count : ℕ) (s n : ℕ) (hn : 0 < n) :
    ∀ y ∈ lcgDraws s n count, y < n := by
  induction count generalizing s with
  | zero => simp [lcgDraws]
  | succ k ih =>
      rw [lcgDraws, List.forall_mem_cons]
      exact ⟨Nat.mod_lt _ hn, ih (lcgNext s)⟩

theorem dictLookup_zip_mem (keys : List ℕ) :
    ∀ (vals : List ℕ) (k : ℕ), keys.length = vals.length → k ∈ keys →
      ∃ v, dictLookup k (keys.zip vals) = some v ∧ v ∈ vals := by
  induction keys with
  | nil => intro vals k _ hk; simp at hk
  | cons a keys ih =>
      intro vals k hlen hk
      cases vals with
      | nil => simp at hlen
      | cons b vals =>
          simp only [List.zip_cons_cons, dictLookup]
          by_cases hak : a = k
          · exact ⟨b, by rw [if_pos hak], List.mem_cons_self b vals⟩
          · have hk' : k ∈ keys := by
              rcases List.mem_cons.mp hk with h | h
              · exact absurd h.symm hak
              · exact h
            have hlen' : keys.length = vals.length := by
              simpa using hlen
            obtain ⟨v, hv, hvmem⟩ := ih vals k hlen' hk'
            exact ⟨v, by rw [if_neg hak]; exact hv, List.mem_cons_of_mem b hvmem⟩

theorem year_assoc_perm (seed t : ℕ) (evs evs' : List Event)
    (h : (evs.map Event.eid).Perm (evs'.map Event.eid)) :
    year_assoc seed t evs = year_assoc seed t evs' := by
  have hsort : List.insertionSort (· ≤ ·) (evs.map Event.eid) =
      List.insertionSort (· ≤ ·) (evs'.map Event.eid) :=
    List.eq_of_perm_of_sorted
      ((List.perm_insertionSort _ _).trans
        (h.trans (List.perm_insertionSort _ _).symm))
      (List.sorted_insertionSort _ _) (List.sorted_insertionSort _ _)
  have hlen : evs.length = evs'.length := by
    have := h.length_eq
    simpa using this
  unfold year_assoc
  rw [hsort, hlen]

/-- Claim C8: the year-assignment pass is a deterministic function of the
configured seed and the event-id set — permuting the events does not change
the resulting event→year mapping; for every seed, every assigned year lies
in `[1, investigation_time]`; and a different seed can change the mapping
while keeping every year within `[1, investigation_time]`. -/
theorem set_random_years_deterministic_and_in_range :
    (∀ (seed t : ℕ) (evs evs' : List Event),
      (evs.map Event.eid).Perm (evs'.map Event.eid) →
      ∀ eid, year_map seed t evs eid = year_map seed t evs' eid) ∧
    (∀ (seed t : ℕ) (evs : List Event), 0 < t →
      ∀ e ∈ set_random_years seed t evs, 1 ≤ e.year ∧ e.year ≤ t) ∧
    (∃ s₁ s₂ t : ℕ, ∃ evs : List Event,
      (∀ e ∈ set_random_years s₁ t evs, 1 ≤ e.year ∧ e.year ≤ t) ∧
      (∀ e ∈ set_random_years s₂ t evs, 1 ≤ e.year ∧ e.year ≤ t) ∧
      set_random_years s₁ t evs ≠ set_random_years s₂ t evs) := by
  refine ⟨?_, ?_, ?_⟩
  · intro seed t evs evs' h eid
    unfold year_map
    rw [year_assoc_perm seed t evs evs' h]
  · intro seed t evs ht e he
    simp only [set_random_years, List.mem_map] at he
    obtain ⟨e₀, he₀, rfl⟩ := he
    have hkey : e₀.eid ∈ List.insertionSort (· ≤ ·) (evs.map Event.eid) := by
      rw [List.mem_insertionSort]
      exact List.mem_map_of_mem Event.eid he₀
    have hlen : (List.insertionSort (· ≤ ·) (evs.map Event.eid)).length =
        ((lcgDraws seed t evs.length).map (fun y => y + 1)).length := by
      rw [List.length_map, lcgDraws_length,
        (List.perm_insertionSort _ _).length_eq, List.length_map]
    obtain ⟨v, hv, hvmem⟩ :=
      dictLookup_zip_mem _ _ e₀.eid hlen hkey
    have : year_map seed t evs e₀.eid = some v := hv
    simp only [this, Option.getD_some]
    simp only [List.mem_map] at hvmem
    obtain ⟨y, hy, rfl⟩ := hvmem
    have := lcgDraws_lt evs.length seed t ht y hy
    omega
  · refine ⟨0, 1, 10, [⟨5, 0⟩], by decide, by decide, by decide⟩

/-- Concrete instance of C8's range property: with seed 7 and investigation
time 10, the single event keeps a year in `[1, 10]`. -/
theorem set_random_years_in_range_witness :
    ∀ e ∈ set_random_years 7 10 [⟨3, 0⟩], 1 ≤ e.year ∧ e.year ≤ 10 :=
  set_random_years_deterministic_and_in_range.2.1 7 10 [⟨3, 0⟩] (by decide)

end EventBased

namespace EventBasedDamage

/-- Claim C9: for one event at one site, an asset with damage-state
fractions `[0.1, 0.9]` and quantity 10 plus an asset with fractions
`[0.2, 0.8]` and quantity 5 put `0.1*10 + 0.2*5 = 2.0` into damage state 0
and `0.9*10 + 0.8*5 = 13.0` into damage state 1 of the `total` aggregation
bucket `(eid, K)` (the per-asset keys being distinct from the sentinel when a
breakdown is requested); and with `K = 0` (no per-aggregation breakdown) no
bucket other than the `total` one receives any contribution. -/
theorem accum_damage_scenario :
    (∀ (K : ℕ) (kids : ℕ → ℕ), (K ≠ 0 → kids 0 ≠ K ∧ kids 1 ≠ K) →
      accum_damage 2 K kids [⟨0, 10⟩, ⟨1, 5⟩]
        [[1/10, 9/10], [1/5, 4/5]] 0 (0, K) = [2, 13]) ∧
    (∀ (D : ℕ) (kids : ℕ → ℕ) (assets : List DamageAsset)
        (fractions : List (List ℚ)) (eid : ℕ) (key : ℕ × ℕ),
      key ≠ (eid, 0) →
      accum_damage D 0 kids assets fractions eid key = List.replicate D 0) := by
  constructor
  · intro K kids hk
    by_cases hK : K = 0
    · subst hK
      norm_num [accum_damage, addVec, scaleVec, List.replicate]
    · obtain ⟨h0, h1⟩ := hk hK
      have e0 : ¬((0 : ℕ), K) = (0, kids 0) :=
        fun h => h0 (congrArg Prod.snd h).symm
      have e1 : ¬((0 : ℕ), K) = (0, kids 1) :=
        fun h => h1 (congrArg Prod.snd h).symm
      simp only [accum_damage, ne_eq, hK, not_false_iff, if_true,
        List.zip_cons_cons, List.map_cons, List.foldl_cons, List.zip_nil_right,
        List.map_nil, List.foldl_nil, scaleVec, addVec]
      rw [if_neg e1, if_neg e0]
      norm_num [List.replicate]
  · intro D kids assets fractions eid key hkey
    simp only [accum_damage, ne_eq, not_true_eq_false, if_false]
    rw [if_neg hkey]

/-- Concrete instance of C9: with no per-aggregation breakdown requested the
`total` bucket of the two-asset scenario holds `[2, 13]`. -/
theorem accum_damage_scenario_witness :
    accum_damage 2 0 (fun _ => 0) [⟨0, 10⟩, ⟨1, 5⟩]
      [[1/10, 9/10], [1/5, 4/5]] 0 (0, 0) = [2, 13] :=
  accum_damage_scenario.1 0 (fun _ => 0) (fun h => absurd rfl h)

end EventBasedDamage

namespace Can15

/-- Claim C10: every call to the `WesternCan15` `get_mean_and_stddevs`
(mid, low or upp `sgn`) returns as standard deviations exactly one array,
of the length of `dists.rjb`, whose entries all equal `get_sigma imt` —
whatever standard-deviation types the caller requested — so the parent
`BooreAtkinson2011` standard deviations never reach the caller; and
`get_sigma` is the piecewise sigma of the source: exponent `0.23` for period
below `0.2`, `0.27` above `1.0`, linear interpolation between. -/
theorem western_stddevs_constant_sigma (sgn : ℚ) (parentMean : List ℚ)
    (parentStds : List (List ℚ)) (rjb : List ℚ) (period : ℚ)
    (stddev_types : List StdDevType) :
    ((get_mean_and_stddevs sgn parentMean parentStds rjb period
        stddev_types).2 = [List.replicate rjb.length (get_sigma period)]) ∧
    (∀ arr ∈ (get_mean_and_stddevs sgn parentMean parentStds rjb period
        stddev_types).2, arr.length = rjb.length ∧
        ∀ x ∈ arr, x = get_sigma period) ∧
    (∀ (parentStds' : List (List ℚ)) (stddev_types' : List StdDevType),
      (get_mean_and_stddevs sgn parentMean parentStds' rjb period
          stddev_types').2 =
        (get_mean_and_stddevs sgn parentMean parentStds rjb period
          stddev_types).2) ∧
    (period < 1/5 → get_sigma period = 23/100) ∧
    (1 < period → get_sigma period = 27/100) ∧
    (1/5 ≤ period → period ≤ 1 →
      get_sigma period = 23/100 + (period - 1/5) / (4/5) * (1/25)) := by
  refine ⟨rfl, ?_, fun _ _ => rfl, ?_, ?_, ?_⟩
  · intro arr harr
    simp only [get_mean_and_stddevs, List.mem_singleton] at harr
    subst harr
    exact ⟨List.length_replicate _ _, fun x hx => List.eq_of_mem_replicate hx⟩
  · intro h
    unfold get_sigma
    rw [if_pos h]
  · intro h
    unfold get_sigma
    rw [if_neg (by linarith), if_pos h]
  · intro h1 h2
    unfold get_sigma
    rw [if_neg (by linarith), if_neg (by linarith)]

/-- Concrete instance of C10: for a short period the two-site stddev array is
the constant `get_sigma` array, with any requested stddev types. -/
theorem western_stddevs_constant_sigma_witness :
    (get_mean_and_stddevs 0 [1] [[5, 6]] [3, 4] (1/10)
        [StdDevType.total, StdDevType.interEvent]).2 =
      [List.replicate ([3, 4] : List ℚ).length (get_sigma (1/10))] :=
  (western_stddevs_constant_sigma 0 [1] [[5, 6]] [3, 4] (1/10)
    [StdDevType.total, StdDevType.interEvent]).1

end Can15
